import Mathlib

/-!
A verification development for the rawkv client (`rawkv/rawkv.go`).

The Go functions are shallowly embedded as Lean functions.  External
collaborators (the region routing cache, the RPC transport and the backoff
controller) are abstracted as explicit environment traces: each loop
iteration of a dispatcher consumes one trace record holding the outcomes the
environment would have produced for that iteration's calls.  Byte strings
are `List Nat` with lexicographic comparison mirroring `bytes.Compare`.
-/

set_option autoImplicit false

namespace RawKV

/-- Keys and values are opaque byte strings. -/
abbrev Key := List Nat

/-- Lexicographic byte-string comparison, mirroring Go's `bytes.Compare`
(negative, zero, positive become `.lt`, `.eq`, `.gt`). -/
def bytesCompare : Key → Key → Ordering
  | [], [] => .eq
  | [], _ :: _ => .lt
  | _ :: _, [] => .gt
  | a :: as, b :: bs =>
    if a < b then .lt else if b < a then .gt else bytesCompare as bs

/-- Modelled from the spec: §6 routing-cache interface.  A `location` record
`(startKey, endKey, regionToken)` as returned by `LocateKey` / `LocateEndKey`
(the cache implementation `internal/locate` is not part of the embedded
source). -/
structure KeyLocation where
  startKey : Key
  endKey : Key
  region : Nat
  deriving DecidableEq, Repr

/-- Error classification for results surfaced by the client, following the
error kinds of the code: region-location lookup errors, transport send
errors, backoff-exhaustion errors, the body-missing error, server-side
logical error strings, argument errors, and the dedicated
`ErrMaxScanLimitExceeded` sentinel. -/
inductive ClientErr where
  | locErr (m : String)
  | sendErr (m : String)
  | backoffErr (m : String)
  | bodyMissing
  | cmdErr (m : String)
  | argErr (m : String)
  | scanLimitExceeded
  deriving DecidableEq, Repr

/-- Modelled from the spec: §6 transport interface.  The response object of a
sent request exposes an optional region error (`GetRegionError() →
regionError?`, infallible per the spec's interface; the `tikvrpc` response
implementation is not part of the embedded source) and an optional typed
inner body (`resp.Resp`, `nil` when the body is missing). -/
structure Response (β : Type) where
  regionError : Option String
  body : Option β
  deriving DecidableEq, Repr

/-- Modelled from the spec: §4.A/§6 backoff controller, routing cache and
transport, which are outside the embedded source.  One record abstracts the
outcomes the environment produces for one iteration of a dispatcher loop:
the region lookup result, the transport send result, and the result of a
`Backoff` call should one be made in this iteration. -/
structure SendIter (β : Type) where
  locate : Except String KeyLocation
  send : Except String (Response β)
  backoff : Except String Unit

/-- Observable outcome of a `sendReq` run: the returned value (`none` when
the given trace ends before the loop does), the `Backoff` invocations as
(reason, cause) pairs, the number of region lookups, the number of transport
sends, and the number of responses that carried a region error. -/
structure SendOutcome (β : Type) where
  result : Option (Except ClientErr (Response β × KeyLocation))
  charges : List (String × String)
  locateCalls : Nat
  sendCalls : Nat
  regionErrSeen : Nat

/-- Embedding of `Client.sendReq` (rawkv.go, lines 572-603) run against an
iteration trace.  Each iteration resolves the key's location (propagating a
lookup error), sends the request (propagating a transport error), and
inspects the response's region error: absent, the response and location are
returned; present, `Backoff` is invoked with reason `RegionMiss` and the
region error as cause, propagating a backoff error and otherwise looping
(re-resolving the location on the next iteration). -/
def sendReqRun {β : Type} : List (SendIter β) → SendOutcome β
  | [] => ⟨none, [], 0, 0, 0⟩
  | it :: rest =>
    match it.locate with
    | .error m => ⟨some (.error (.locErr m)), [], 1, 0, 0⟩
    | .ok loc =>
      match it.send with
      | .error m => ⟨some (.error (.sendErr m)), [], 1, 1, 0⟩
      | .ok resp =>
        match resp.regionError with
        | none => ⟨some (.ok (resp, loc)), [], 1, 1, 0⟩
        | some re =>
          match it.backoff with
          | .error m => ⟨some (.error (.backoffErr m)), [("RegionMiss", re)], 1, 1, 1⟩
          | .ok _ =>
            let o := sendReqRun rest
            ⟨o.result, ("RegionMiss", re) :: o.charges,
              o.locateCalls + 1, o.sendCalls + 1, o.regionErrSeen + 1⟩

theorem sendReqRun_ok_no_region_error {β : Type} (env : List (SendIter β)) :
    ∀ resp loc, (sendReqRun env).result = some (.ok (resp, loc)) →
      resp.regionError = none := by
  induction env with
  | nil => intro resp loc h; simp [sendReqRun] at h
  | cons it rest ih =>
    intro resp loc h
    cases hL : it.locate with
    | error m => simp [sendReqRun, hL] at h
    | ok loc0 =>
      cases hS : it.send with
      | error m => simp [sendReqRun, hL, hS] at h
      | ok resp0 =>
        cases hR : resp0.regionError with
        | none =>
          simp [sendReqRun, hL, hS, hR] at h
          obtain ⟨h1, h2⟩ := h
          subst h1; exact hR
        | some re =>
          cases hB : it.backoff with
          | error m => simp [sendReqRun, hL, hS, hR, hB] at h
          | ok u =>
            simp [sendReqRun, hL, hS, hR, hB] at h
            exact ih resp loc h

theorem sendReqRun_charges_region_miss {β : Type} (env : List (SendIter β)) :
    ∀ c ∈ (sendReqRun env).charges, c.1 = "RegionMiss" := by
  induction env with
  | nil => intro c hc; simp [sendReqRun] at hc
  | cons it rest ih =>
    intro c hc
    cases hL : it.locate with
    | error m => simp [sendReqRun, hL] at hc
    | ok loc0 =>
      cases hS : it.send with
      | error m => simp [sendReqRun, hL, hS] at hc
      | ok resp0 =>
        cases hR : resp0.regionError with
        | none => simp [sendReqRun, hL, hS, hR] at hc
        | some re =>
          cases hB : it.backoff with
          | error m =>
            simp [sendReqRun, hL, hS, hR, hB] at hc
            simp [hc]
          | ok u =>
            simp [sendReqRun, hL, hS, hR, hB] at hc
            rcases hc with hc | hc
            · simp [hc]
            · exact ih c hc

theorem sendReqRun_error_sources {β : Type} (env : List (SendIter β)) :
    ∀ e, (sendReqRun env).result = some (.error e) →
      (∃ m, e = ClientErr.locErr m) ∨ (∃ m, e = ClientErr.sendErr m) ∨
        (∃ m, e = ClientErr.backoffErr m) := by
  induction env with
  | nil => intro e h; simp [sendReqRun] at h
  | cons it rest ih =>
    intro e h
    cases hL : it.locate with
    | error m =>
      simp [sendReqRun, hL] at h
      exact Or.inl ⟨m, h.symm⟩
    | ok loc0 =>
      cases hS : it.send with
      | error m =>
        simp [sendReqRun, hL, hS] at h
        exact Or.inr (Or.inl ⟨m, h.symm⟩)
      | ok resp0 =>
        cases hR : resp0.regionError with
        | none => simp [sendReqRun, hL, hS, hR] at h
        | some re =>
          cases hB : it.backoff with
          | error m =>
            simp [sendReqRun, hL, hS, hR, hB] at h
            exact Or.inr (Or.inr ⟨m, h.symm⟩)
          | ok u =>
            simp [sendReqRun, hL, hS, hR, hB] at h
            exact ih e h

theorem sendReqRun_one_charge_per_region_error {β : Type}
    (env : List (SendIter β)) :
    (sendReqRun env).charges.length = (sendReqRun env).regionErrSeen := by
  induction env with
  | nil => simp [sendReqRun]
  | cons it rest ih =>
    cases hL : it.locate with
    | error m => simp [sendReqRun, hL]
    | ok loc0 =>
      cases hS : it.send with
      | error m => simp [sendReqRun, hL, hS]
      | ok resp0 =>
        cases hR : resp0.regionError with
        | none => simp [sendReqRun, hL, hS, hR]
        | some re =>
          cases hB : it.backoff with
          | error m => simp [sendReqRun, hL, hS, hR, hB]
          | ok u => simp [sendReqRun, hL, hS, hR, hB, ih]

/-- C1: `sendReq` never returns a region-error to its caller: a returned
response carries no region error; every `Backoff` charge it makes uses
reason `RegionMiss`, one charge per region-errored response; and any error
it propagates originates in the location lookup, the transport send, or the
backoff call. -/
theorem sendReq_never_surfaces_region_error :
    (∀ (β : Type) (env : List (SendIter β)) (resp : Response β) (loc : KeyLocation),
        (sendReqRun env).result = some (.ok (resp, loc)) → resp.regionError = none)
    ∧ (∀ (β : Type) (env : List (SendIter β)), ∀ c ∈ (sendReqRun env).charges,
        c.1 = "RegionMiss")
    ∧ (∀ (β : Type) (env : List (SendIter β)) (e : ClientErr),
        (sendReqRun env).result = some (.error e) →
          (∃ m, e = ClientErr.locErr m) ∨ (∃ m, e = ClientErr.sendErr m) ∨
            (∃ m, e = ClientErr.backoffErr m))
    ∧ (∀ (β : Type) (env : List (SendIter β)),
        (sendReqRun env).charges.length = (sendReqRun env).regionErrSeen) :=
  ⟨fun _ env => sendReqRun_ok_no_region_error env,
   fun _ env => sendReqRun_charges_region_miss env,
   fun _ env => sendReqRun_error_sources env,
   fun _ env => sendReqRun_one_charge_per_region_error env⟩

/-- Trace used by the C1 witness: one region-errored attempt with a
successful backoff, then a clean success. -/
def c1Env : List (SendIter Nat) :=
  [⟨.ok ⟨[], [5], 1⟩, .ok ⟨some "epoch not match", none⟩, .ok ()⟩,
   ⟨.ok ⟨[], [5], 1⟩, .ok ⟨none, some 7⟩, .ok ()⟩]

theorem sendReq_never_surfaces_region_error_witness :
    (sendReqRun c1Env).result =
      some (.ok (⟨none, some 7⟩, ⟨[], [5], 1⟩)) ∧
    (Response.mk (β := Nat) none (some 7)).regionError = none ∧
    (sendReqRun c1Env).charges = [("RegionMiss", "epoch not match")] ∧
    ("RegionMiss", "epoch not match").1 = "RegionMiss" ∧
    (sendReqRun c1Env).charges.length = (sendReqRun c1Env).regionErrSeen :=
  ⟨rfl,
   sendReq_never_surfaces_region_error.1 Nat c1Env ⟨none, some 7⟩ ⟨[], [5], 1⟩ rfl,
   rfl,
   sendReq_never_surfaces_region_error.2.1 Nat c1Env
     ("RegionMiss", "epoch not match") (by decide),
   sendReq_never_surfaces_region_error.2.2.2 Nat c1Env⟩

/-- Maximum scan limit for rawkv Scan (`MaxRawKVScanLimit`, rawkv.go line 59). -/
def MaxRawKVScanLimit : Int := 10240

/-- Wire message of one raw scan RPC (`kvrpcpb.RawScanRequest` as filled in by
`Scan` / `ReverseScan`): range bounds, the per-request limit, and the reverse
flag. -/
structure RawScanRequest where
  startKey : Key
  endKey : Key
  limit : Nat
  reverse : Bool
  deriving DecidableEq, Repr

/-- Inner body of a raw scan response (`kvrpcpb.RawScanResponse`): the
key-value pairs, in server order (the only field the client reads). -/
structure ScanResp where
  kvs : List (Key × Key)
  deriving DecidableEq, Repr

/-- Observable outcome of a scan walk: the returned value (`none` when the
trace ends before the loop does), the scan requests issued in order, and the
number of region lookups and transport sends. -/
structure ScanOutcome (α : Type) where
  result : Option (Except ClientErr α)
  reqs : List RawScanRequest
  locateCalls : Nat
  sendCalls : Nat

/-- Embedding of the loop of `Client.Scan` (rawkv.go, lines 452-475), run
against one `sendReq` trace per iteration.  While fewer pairs than `limit`
are accumulated and (`endKey` is empty or `startKey < endKey`): issue a scan
request carrying the remaining limit via the dispatcher, append the returned
pairs in order, advance `startKey` to the located region's end key, and stop
if that end key is empty. -/
def scanLoop (endKey : Key) (limit : Int) :
    List (List (SendIter ScanResp)) → Key → List Key → List Key →
      ScanOutcome (List Key × List Key)
  | [], startKey, keys, values =>
    if (keys.length : Int) < limit ∧
        (endKey = [] ∨ bytesCompare startKey endKey = .lt) then
      ⟨none, [], 0, 0⟩
    else ⟨some (.ok (keys, values)), [], 0, 0⟩
  | trace :: rest, startKey, keys, values =>
    if (keys.length : Int) < limit ∧
        (endKey = [] ∨ bytesCompare startKey endKey = .lt) then
      let req : RawScanRequest :=
        ⟨startKey, endKey, (limit - (keys.length : Int)).toNat, false⟩
      let o := sendReqRun trace
      match o.result with
      | none => ⟨none, [req], o.locateCalls, o.sendCalls⟩
      | some (.error e) => ⟨some (.error e), [req], o.locateCalls, o.sendCalls⟩
      | some (.ok (resp, loc)) =>
        match resp.body with
        | none => ⟨some (.error .bodyMissing), [req], o.locateCalls, o.sendCalls⟩
        | some cmd =>
          let keys1 := keys ++ cmd.kvs.map Prod.fst
          let values1 := values ++ cmd.kvs.map Prod.snd
          if loc.endKey = [] then
            ⟨some (.ok (keys1, values1)), [req], o.locateCalls, o.sendCalls⟩
          else
            let t := scanLoop endKey limit rest loc.endKey keys1 values1
            ⟨t.result, req :: t.reqs, o.locateCalls + t.locateCalls,
              o.sendCalls + t.sendCalls⟩
    else ⟨some (.ok (keys, values)), [], 0, 0⟩

/-- Embedding of `Client.Scan` (rawkv.go, lines 444-476): the limit-cap check
precedes the walk. -/
def Scan (startKey endKey : Key) (limit : Int)
    (env : List (List (SendIter ScanResp))) : ScanOutcome (List Key × List Key) :=
  if MaxRawKVScanLimit < limit then ⟨some (.error .scanLimitExceeded), [], 0, 0⟩
  else scanLoop endKey limit env startKey [] []

/-- Embedding of the loop of `Client.ReverseScan` (rawkv.go, lines 495-518):
as Scan, with guard `startKey > endKey`, the reverse flag set, and the walk
advancing to the located region's start key. -/
def reverseScanLoop (endKey : Key) (limit : Int) :
    List (List (SendIter ScanResp)) → Key → List Key → List Key →
      ScanOutcome (List Key × List Key)
  | [], startKey, keys, values =>
    if (keys.length : Int) < limit ∧ bytesCompare startKey endKey = .gt then
      ⟨none, [], 0, 0⟩
    else ⟨some (.ok (keys, values)), [], 0, 0⟩
  | trace :: rest, startKey, keys, values =>
    if (keys.length : Int) < limit ∧ bytesCompare startKey endKey = .gt then
      let req : RawScanRequest :=
        ⟨startKey, endKey, (limit - (keys.length : Int)).toNat, true⟩
      let o := sendReqRun trace
      match o.result with
      | none => ⟨none, [req], o.locateCalls, o.sendCalls⟩
      | some (.error e) => ⟨some (.error e), [req], o.locateCalls, o.sendCalls⟩
      | some (.ok (resp, loc)) =>
        match resp.body with
        | none => ⟨some (.error .bodyMissing), [req], o.locateCalls, o.sendCalls⟩
        | some cmd =>
          let keys1 := keys ++ cmd.kvs.map Prod.fst
          let values1 := values ++ cmd.kvs.map Prod.snd
          if loc.startKey = [] then
            ⟨some (.ok (keys1, values1)), [req], o.locateCalls, o.sendCalls⟩
          else
            let t := reverseScanLoop endKey limit rest loc.startKey keys1 values1
            ⟨t.result, req :: t.reqs, o.locateCalls + t.locateCalls,
              o.sendCalls + t.sendCalls⟩
    else ⟨some (.ok (keys, values)), [], 0, 0⟩

/-- Embedding of `Client.ReverseScan` (rawkv.go, lines 485-520). -/
def ReverseScan (startKey endKey : Key) (limit : Int)
    (env : List (List (SendIter ScanResp))) : ScanOutcome (List Key × List Key) :=
  if MaxRawKVScanLimit < limit then ⟨some (.error .scanLimitExceeded), [], 0, 0⟩
  else reverseScanLoop endKey limit env startKey [] []

theorem scanLoop_guard_false (e : Key) (limit : Int)
    (env : List (List (SendIter ScanResp))) (s : Key) (ks vs : List Key)
    (h : ¬ ((ks.length : Int) < limit)) :
    scanLoop e limit env s ks vs = ⟨some (.ok (ks, vs)), [], 0, 0⟩ := by
  cases env with
  | nil =>
    simp only [scanLoop]
    split
    next hc => exact absurd hc.1 h
    next => rfl
  | cons t r =>
    simp only [scanLoop]
    split
    next hc => exact absurd hc.1 h
    next => rfl

theorem reverseScanLoop_guard_false (e : Key) (limit : Int)
    (env : List (List (SendIter ScanResp))) (s : Key) (ks vs : List Key)
    (h : ¬ ((ks.length : Int) < limit)) :
    reverseScanLoop e limit env s ks vs = ⟨some (.ok (ks, vs)), [], 0, 0⟩ := by
  cases env with
  | nil =>
    simp only [reverseScanLoop]
    split
    next hc => exact absurd hc.1 h
    next => rfl
  | cons t r =>
    simp only [reverseScanLoop]
    split
    next hc => exact absurd hc.1 h
    next => rfl

theorem scanLoop_no_limit_error (e : Key) (limit : Int)
    (env : List (List (SendIter ScanResp))) :
    ∀ (s : Key) (ks vs : List Key),
      (scanLoop e limit env s ks vs).result ≠
        some (.error ClientErr.scanLimitExceeded) := by
  induction env with
  | nil =>
    intro s ks vs
    by_cases hg : ((ks.length : Int) < limit ∧
        (e = [] ∨ bytesCompare s e = .lt))
    · simp [scanLoop, hg]
    · simp [scanLoop, hg]
  | cons trace rest ih =>
    intro s ks vs
    by_cases hg : ((ks.length : Int) < limit ∧
        (e = [] ∨ bytesCompare s e = .lt))
    · cases hO : (sendReqRun trace).result with
      | none => simp [scanLoop, hg, hO]
      | some r =>
        cases r with
        | error err =>
          have hsrc := sendReqRun_error_sources trace err hO
          simp only [scanLoop, hg, if_true, hO]
          rcases hsrc with ⟨m, hm⟩ | ⟨m, hm⟩ | ⟨m, hm⟩ <;> simp [hm]
        | ok pr =>
          obtain ⟨resp, loc⟩ := pr
          cases hB : resp.body with
          | none => simp [scanLoop, hg, hO, hB]
          | some cmd =>
            by_cases hE : loc.endKey = []
            · simp [scanLoop, hg, hO, hB, hE]
            · simp only [scanLoop, hg, if_true, hO, hB, hE, if_false]
              simp [hE]
              exact ih _ _ _
    · simp [scanLoop, hg]

theorem reverseScanLoop_no_limit_error (e : Key) (limit : Int)
    (env : List (List (SendIter ScanResp))) :
    ∀ (s : Key) (ks vs : List Key),
      (reverseScanLoop e limit env s ks vs).result ≠
        some (.error ClientErr.scanLimitExceeded) := by
  induction env with
  | nil =>
    intro s ks vs
    by_cases hg : ((ks.length : Int) < limit ∧ bytesCompare s e = .gt)
    · simp [reverseScanLoop, hg]
    · simp [reverseScanLoop, hg]
  | cons trace rest ih =>
    intro s ks vs
    by_cases hg : ((ks.length : Int) < limit ∧ bytesCompare s e = .gt)
    · cases hO : (sendReqRun trace).result with
      | none => simp [reverseScanLoop, hg, hO]
      | some r =>
        cases r with
        | error err =>
          have hsrc := sendReqRun_error_sources trace err hO
          simp only [reverseScanLoop, hg, if_true, hO]
          rcases hsrc with ⟨m, hm⟩ | ⟨m, hm⟩ | ⟨m, hm⟩ <;> simp [hm]
        | ok pr =>
          obtain ⟨resp, loc⟩ := pr
          cases hB : resp.body with
          | none => simp [reverseScanLoop, hg, hO, hB]
          | some cmd =>
            by_cases hE : loc.startKey = []
            · simp [reverseScanLoop, hg, hO, hB, hE]
            · simp only [reverseScanLoop, hg, if_true, hO, hB, hE, if_false]
              simp [hE]
              exact ih _ _ _
    · simp [reverseScanLoop, hg]

/-- C5: for every limit strictly above 10240, `Scan` and `ReverseScan`
return the dedicated scan-limit-exceeded error with no request issued and no
region lookup or transport send performed; a limit of exactly 10240 passes
the check and never produces that error. -/
theorem scan_limit_cap :
    (∀ (s e : Key) (limit : Int) (env : List (List (SendIter ScanResp))),
        MaxRawKVScanLimit < limit →
          Scan s e limit env =
            ⟨some (.error ClientErr.scanLimitExceeded), [], 0, 0⟩ ∧
          ReverseScan s e limit env =
            ⟨some (.error ClientErr.scanLimitExceeded), [], 0, 0⟩)
    ∧ (∀ (s e : Key) (env : List (List (SendIter ScanResp))),
        (Scan s e 10240 env).result ≠
          some (.error ClientErr.scanLimitExceeded) ∧
        (ReverseScan s e 10240 env).result ≠
          some (.error ClientErr.scanLimitExceeded)) := by
  constructor
  · intro s e limit env h
    constructor
    · simp only [Scan, if_pos h]
    · simp only [ReverseScan, if_pos h]
  · intro s e env
    have h : ¬ (MaxRawKVScanLimit < (10240 : Int)) := by decide
    constructor
    · simp only [Scan, if_neg h]
      exact scanLoop_no_limit_error e 10240 env s [] []
    · simp only [ReverseScan, if_neg h]
      exact reverseScanLoop_no_limit_error e 10240 env s [] []

theorem scan_limit_cap_witness :
    MaxRawKVScanLimit < (10241 : Int) ∧
    Scan [] [] 10241 [] = ⟨some (.error ClientErr.scanLimitExceeded), [], 0, 0⟩ ∧
    (Scan [97] [122] 10240 []).result ≠
      some (.error ClientErr.scanLimitExceeded) :=
  ⟨by decide,
   (scan_limit_cap.1 [] [] 10241 [] (by decide)).1,
   (scan_limit_cap.2 [97] [122] []).1⟩

/-- C10: a limit of zero or below is not rejected: `Scan` and `ReverseScan`
return empty key and value lists with no error, issuing no request and
performing no region lookup or transport send. -/
theorem scan_nonpositive_limit_empty :
    ∀ (s e : Key) (limit : Int) (env : List (List (SendIter ScanResp))),
      limit ≤ 0 →
        Scan s e limit env = ⟨some (.ok ([], [])), [], 0, 0⟩ ∧
        ReverseScan s e limit env = ⟨some (.ok ([], [])), [], 0, 0⟩ := by
  intro s e limit env h
  have h1 : ¬ (MaxRawKVScanLimit < limit) := by
    unfold MaxRawKVScanLimit; omega
  have h0 : ¬ ((([] : List Key).length : Int) < limit) := by
    simp; omega
  constructor
  · simp only [Scan, if_neg h1]
    exact scanLoop_guard_false e limit env s [] [] h0
  · simp only [ReverseScan, if_neg h1]
    exact reverseScanLoop_guard_false e limit env s [] [] h0

/-- Trace used by the C10 witness: an environment able to serve one clean
iteration, which must nevertheless stay untouched. -/
def c10Env : List (List (SendIter ScanResp)) :=
  [[⟨.ok ⟨[], [], 3⟩, .ok ⟨none, some ⟨[([98], [1])]⟩⟩, .ok ()⟩]]

theorem scan_nonpositive_limit_empty_witness :
    ((-3 : Int) ≤ 0) ∧
    Scan [97] [122] (-3) c10Env = ⟨some (.ok ([], [])), [], 0, 0⟩ ∧
    ReverseScan [122] [97] (-3) c10Env = ⟨some (.ok ([], [])), [], 0, 0⟩ :=
  ⟨by decide,
   (scan_nonpositive_limit_empty [97] [122] (-3) c10Env (by decide)).1,
   (scan_nonpositive_limit_empty [122] [97] (-3) c10Env (by decide)).2⟩

/-- Splitting a pair accumulator into the key list and the value list, in
lockstep. -/
def splitPairs (ps : List (Key × Key)) : List Key × List Key :=
  (ps.map Prod.fst, ps.map Prod.snd)

/-- Forward scan walker transcribed from the specification's wording (§4.F):
while the accumulator holds fewer than `limit` pairs and (`end` is empty or
`start < end`), issue a scan RPC via the dispatcher carrying the remaining
limit (`limit` minus the pairs accumulated so far), append the returned
pairs in server order, advance `start` to the location's end key, and
terminate if it is empty.  Stated over pair accumulators; to be compared
with `scanLoop`, which is translated from the code. -/
def scanSpecLoop (endKey : Key) (limit : Int) :
    List (List (SendIter ScanResp)) → Key → List (Key × Key) →
      ScanOutcome (List (Key × Key))
  | [], s, accum =>
    if (accum.length : Int) < limit ∧
        (endKey = [] ∨ bytesCompare s endKey = .lt) then
      ⟨none, [], 0, 0⟩
    else ⟨some (.ok accum), [], 0, 0⟩
  | trace :: rest, s, accum =>
    if (accum.length : Int) < limit ∧
        (endKey = [] ∨ bytesCompare s endKey = .lt) then
      let req : RawScanRequest :=
        ⟨s, endKey, (limit - (accum.length : Int)).toNat, false⟩
      let o := sendReqRun trace
      match o.result with
      | none => ⟨none, [req], o.locateCalls, o.sendCalls⟩
      | some (.error e) => ⟨some (.error e), [req], o.locateCalls, o.sendCalls⟩
      | some (.ok (resp, loc)) =>
        match resp.body with
        | none => ⟨some (.error .bodyMissing), [req], o.locateCalls, o.sendCalls⟩
        | some cmd =>
          let accum1 := accum ++ cmd.kvs
          if loc.endKey = [] then
            ⟨some (.ok accum1), [req], o.locateCalls, o.sendCalls⟩
          else
            let t := scanSpecLoop endKey limit rest loc.endKey accum1
            ⟨t.result, req :: t.reqs, o.locateCalls + t.locateCalls,
              o.sendCalls + t.sendCalls⟩
    else ⟨some (.ok accum), [], 0, 0⟩

/-- Forward scan per the specification: validate the limit cap, then walk
with an empty accumulator. -/
def ScanSpec (startKey endKey : Key) (limit : Int)
    (env : List (List (SendIter ScanResp))) : ScanOutcome (List (Key × Key)) :=
  if MaxRawKVScanLimit < limit then ⟨some (.error .scanLimitExceeded), [], 0, 0⟩
  else scanSpecLoop endKey limit env startKey []

/-- Reading a pair-accumulator outcome as a two-list outcome. -/
def splitOutcome (o : ScanOutcome (List (Key × Key))) :
    ScanOutcome (List Key × List Key) :=
  ⟨o.result.map (Except.map splitPairs), o.reqs, o.locateCalls, o.sendCalls⟩

theorem scanLoop_eq_specLoop (e : Key) (limit : Int)
    (env : List (List (SendIter ScanResp))) :
    ∀ (s : Key) (accum : List (Key × Key)),
      scanLoop e limit env s (accum.map Prod.fst) (accum.map Prod.snd) =
        splitOutcome (scanSpecLoop e limit env s accum) := by
  induction env with
  | nil =>
    intro s accum
    by_cases hg : ((accum.length : Int) < limit ∧
        (e = [] ∨ bytesCompare s e = .lt))
    · simp [scanLoop, scanSpecLoop, splitOutcome, hg, List.length_map]
    · simp [scanLoop, scanSpecLoop, splitOutcome, splitPairs, hg,
        List.length_map, Except.map]
  | cons trace rest ih =>
    intro s accum
    by_cases hg : ((accum.length : Int) < limit ∧
        (e = [] ∨ bytesCompare s e = .lt))
    · cases hO : (sendReqRun trace).result with
      | none =>
        simp [scanLoop, scanSpecLoop, splitOutcome, hg, hO, List.length_map]
      | some r =>
        cases r with
        | error err =>
          simp [scanLoop, scanSpecLoop, splitOutcome, hg, hO,
            List.length_map, Except.map]
        | ok pr =>
          obtain ⟨resp, loc⟩ := pr
          cases hB : resp.body with
          | none =>
            simp [scanLoop, scanSpecLoop, splitOutcome, hg, hO, hB,
              List.length_map, Except.map]
          | some cmd =>
            by_cases hE : loc.endKey = []
            · simp [scanLoop, scanSpecLoop, splitOutcome, splitPairs, hg, hO,
                hB, hE, List.length_map, Except.map, List.map_append]
            · have hrec := ih loc.endKey (accum ++ cmd.kvs)
              rw [List.map_append, List.map_append] at hrec
              simp [scanLoop, scanSpecLoop, splitOutcome, hg, hO, hB, hE,
                List.length_map, hrec]
    · simp [scanLoop, scanSpecLoop, splitOutcome, splitPairs, hg,
        List.length_map, Except.map]

/-- C7: the forward scan of the code coincides with the specification's
walker: same guard (fewer accumulated pairs than `limit`, and `end` empty or
`start < end`), each issued request carrying exactly the remaining limit,
pairs appended in server order with keys and values in lockstep, `start`
advanced to the located region's end key, terminating when it is empty. -/
theorem scan_refines_spec_walker :
    ∀ (startKey endKey : Key) (limit : Int)
      (env : List (List (SendIter ScanResp))),
      Scan startKey endKey limit env =
        splitOutcome (ScanSpec startKey endKey limit env) := by
  intro s e limit env
  by_cases h : MaxRawKVScanLimit < limit
  · simp [Scan, ScanSpec, splitOutcome, h, Except.map]
  · simp only [Scan, ScanSpec, if_neg h]
    have hc := scanLoop_eq_specLoop e limit env s []
    simpa using hc

/-- Observable outcome of a point or batched operation: the returned value
(`none` when the trace ends before the retry loop does) and the number of
region lookups and transport sends performed. -/
structure OpOutcome (α : Type) where
  result : Option (Except ClientErr α)
  locateCalls : Nat
  sendCalls : Nat

/-- Inner body of a raw put response (`kvrpcpb.RawPutResponse`): the
server-side error string. -/
structure RawPutResponse where
  error : String
  deriving DecidableEq, Repr

/-- Embedding of `Client.PutWithTTL` (rawkv.go, lines 180-208): an empty
value is rejected with an argument error before any request is built; then
the request goes through `sendReq`, and a missing body or a non-empty
server error string is surfaced. -/
def putWithTTL (key value : Key) (ttl : Nat)
    (env : List (SendIter RawPutResponse)) : OpOutcome Unit :=
  if value.length = 0 then
    ⟨some (.error (.argErr "empty value is not supported")), 0, 0⟩
  else
    let o := sendReqRun env
    match o.result with
    | none => ⟨none, o.locateCalls, o.sendCalls⟩
    | some (.error e) => ⟨some (.error e), o.locateCalls, o.sendCalls⟩
    | some (.ok (resp, _)) =>
      match resp.body with
      | none => ⟨some (.error .bodyMissing), o.locateCalls, o.sendCalls⟩
      | some cmd =>
        if cmd.error ≠ "" then
          ⟨some (.error (.cmdErr cmd.error)), o.locateCalls, o.sendCalls⟩
        else ⟨some (.ok ()), o.locateCalls, o.sendCalls⟩

/-- Embedding of `Client.Put` (rawkv.go, lines 240-242): `PutWithTTL` with
a zero TTL. -/
def put (key value : Key) (env : List (SendIter RawPutResponse)) :
    OpOutcome Unit :=
  putWithTTL key value 0 env

/-- Argument validation of `Client.BatchPut` (rawkv.go, lines 251-261), in
source order: keys/values length parity, ttls length parity when ttls are
given, then rejection of any empty value. -/
def batchPutValidate (keys values : List Key) (ttls : List Nat) :
    Option String :=
  if keys.length ≠ values.length then
    some "the len of keys is not equal to the len of values"
  else if 0 < ttls.length ∧ keys.length ≠ ttls.length then
    some "the len of ttls is not equal to the len of values"
  else if [] ∈ values then some "empty value is not supported"
  else none

/-- Embedding of `Client.BatchPut` (rawkv.go, lines 245-265): validation
first; only when it passes is the batched send phase entered, whose outcome
is abstracted as `rest`. -/
def batchPut (keys values : List Key) (ttls : List Nat)
    (rest : OpOutcome Unit) : OpOutcome Unit :=
  match batchPutValidate keys values ttls with
  | some m => ⟨some (.error (.argErr m)), 0, 0⟩
  | none => rest

/-- Inner body of a raw compare-and-swap response
(`kvrpcpb.RawCASResponse`). -/
structure RawCASResponse where
  error : String
  previousNotExist : Bool
  previousValue : Key
  succeed : Bool
  deriving DecidableEq, Repr

/-- Embedding of `Client.CompareAndSwap` (rawkv.go, lines 532-570): requires
atomic mode, rejects an empty new value, then sends via `sendReq` and
decodes the response (`previousNotExist` collapsing to an absent previous
value). -/
def compareAndSwap (atomic : Bool) (key : Key) (previousValue : Option Key)
    (newValue : Key) (env : List (SendIter RawCASResponse)) :
    OpOutcome (Option Key × Bool) :=
  if !atomic then
    ⟨some (.error (.argErr "using CompareAndSwap without enable atomic mode")), 0, 0⟩
  else if newValue.length = 0 then
    ⟨some (.error (.argErr "empty value is not supported")), 0, 0⟩
  else
    let o := sendReqRun env
    match o.result with
    | none => ⟨none, o.locateCalls, o.sendCalls⟩
    | some (.error e) => ⟨some (.error e), o.locateCalls, o.sendCalls⟩
    | some (.ok (resp, _)) =>
      match resp.body with
      | none => ⟨some (.error .bodyMissing), o.locateCalls, o.sendCalls⟩
      | some cmd =>
        if cmd.error ≠ "" then
          ⟨some (.error (.cmdErr cmd.error)), o.locateCalls, o.sendCalls⟩
        else if cmd.previousNotExist then
          ⟨some (.ok (none, cmd.succeed)), o.locateCalls, o.sendCalls⟩
        else ⟨some (.ok (some cmd.previousValue, cmd.succeed)), o.locateCalls, o.sendCalls⟩

theorem batchPutValidate_rejects_empty (keys values : List Key)
    (ttls : List Nat) (h : [] ∈ values) :
    ∃ m, batchPutValidate keys values ttls = some m := by
  by_cases h1 : keys.length ≠ values.length
  · exact ⟨"the len of keys is not equal to the len of values",
      by simp [batchPutValidate, h1]⟩
  · by_cases h2 : 0 < ttls.length ∧ keys.length ≠ ttls.length
    · exact ⟨"the len of ttls is not equal to the len of values",
        by simp [batchPutValidate, h1, h2]⟩
    · exact ⟨"empty value is not supported",
        by simp [batchPutValidate, h1, h2, h]⟩

/-- C4: every write API rejects an empty value argument with an
argument-kind error while performing no region lookup and no transport
send: `PutWithTTL` and `Put` with an empty value, `BatchPut` with an empty
value anywhere in the values slice (whatever the batched send phase would
have produced), and `CompareAndSwap` in atomic mode with an empty new
value. -/
theorem write_apis_reject_empty_value :
    (∀ (key : Key) (ttl : Nat) (env : List (SendIter RawPutResponse)),
        putWithTTL key [] ttl env =
          ⟨some (.error (.argErr "empty value is not supported")), 0, 0⟩)
    ∧ (∀ (key : Key) (env : List (SendIter RawPutResponse)),
        put key [] env =
          ⟨some (.error (.argErr "empty value is not supported")), 0, 0⟩)
    ∧ (∀ (keys values : List Key) (ttls : List Nat) (rest : OpOutcome Unit),
        [] ∈ values →
          ∃ m, batchPut keys values ttls rest =
            ⟨some (.error (.argErr m)), 0, 0⟩)
    ∧ (∀ (key : Key) (previousValue : Option Key)
        (env : List (SendIter RawCASResponse)),
        compareAndSwap true key previousValue [] env =
          ⟨some (.error (.argErr "empty value is not supported")), 0, 0⟩) := by
  refine ⟨fun key ttl env => rfl, fun key env => rfl, ?_, fun key pv env => rfl⟩
  intro keys values ttls rest h
  obtain ⟨m, hm⟩ := batchPutValidate_rejects_empty keys values ttls h
  exact ⟨m, by unfold batchPut; rw [hm]⟩

theorem write_apis_reject_empty_value_witness :
    putWithTTL [107] [] 77 [] =
      ⟨some (.error (.argErr "empty value is not supported")), 0, 0⟩ ∧
    put [107] [] [] =
      ⟨some (.error (.argErr "empty value is not supported")), 0, 0⟩ ∧
    ([] ∈ [[104], []] ∧
      ∃ m, batchPut [[1], [2]] [[104], []] [] ⟨some (.ok ()), 9, 9⟩ =
        ⟨some (.error (.argErr m)), 0, 0⟩) ∧
    compareAndSwap true [107] none [] [] =
      ⟨some (.error (.argErr "empty value is not supported")), 0, 0⟩ :=
  ⟨write_apis_reject_empty_value.1 [107] 77 [],
   write_apis_reject_empty_value.2.1 [107] [],
   ⟨by decide,
    write_apis_reject_empty_value.2.2.1 [[1], [2]] [[104], []] []
      ⟨some (.ok ()), 9, 9⟩ (by decide)⟩,
   write_apis_reject_empty_value.2.2.2 [107] none []⟩

/-- Inner body of a raw batch-get response
(`kvrpcpb.RawBatchGetResponse`): the returned pairs. -/
structure RawBatchGetResponse where
  pairs : List (Key × Key)
  deriving DecidableEq, Repr

/-- The `keyToValue` map built by `BatchGet` (rawkv.go, lines 167-170):
inserting each returned pair in order, a later pair for the same key
overwriting an earlier one (Go map assignment), modelled as push-front with
first-match lookup. -/
def keyToValueMap (pairs : List (Key × Key)) : List (Key × Key) :=
  pairs.foldl (fun m p => p :: m) []

/-- Lookup in the association representation of a Go map: the most recently
inserted pair for the key, absent when none was inserted. -/
def mapGet (m : List (Key × Key)) (k : Key) : Option Key :=
  (m.find? (fun p => p.1 == k)).map Prod.snd

/-- The values slice built by `BatchGet` (rawkv.go, lines 172-175): one
entry per input key, looked up in the key-to-value map (a Go map miss gives
`nil`, modelled as `none`). -/
def batchGetValues (pairs : List (Key × Key)) (keys : List Key) :
    List (Option Key) :=
  keys.map (fun key => mapGet (keyToValueMap pairs) key)

/-- Embedding of `Client.BatchGet` (rawkv.go, lines 150-177): the batched
send phase is abstracted as `batchResult` (its error propagated, a missing
body surfaced), and the returned pairs are associated back to the input
keys. -/
def batchGet (keys : List Key)
    (batchResult : Except ClientErr (Response RawBatchGetResponse)) :
    Except ClientErr (List (Option Key)) :=
  match batchResult with
  | .error e => .error e
  | .ok resp =>
    match resp.body with
    | none => .error .bodyMissing
    | some cmd => .ok (batchGetValues cmd.pairs keys)

theorem foldl_push_eq_reverse (pairs : List (Key × Key)) :
    ∀ acc, pairs.foldl (fun m p => p :: m) acc = pairs.reverse ++ acc := by
  induction pairs with
  | nil => intro acc; simp
  | cons p ps ih => intro acc; simp [List.foldl_cons, ih]

theorem keyToValueMap_eq_reverse (pairs : List (Key × Key)) :
    keyToValueMap pairs = pairs.reverse := by
  unfold keyToValueMap
  rw [foldl_push_eq_reverse]
  simp

theorem find?_reverse_of_nodup (k : Key) (pairs : List (Key × Key))
    (h : (pairs.map Prod.fst).Nodup) :
    pairs.reverse.find? (fun p => p.1 == k) =
      pairs.find? (fun p => p.1 == k) := by
  induction pairs with
  | nil => simp
  | cons p ps ih =>
    rw [List.reverse_cons, List.find?_append]
    have hnd : (ps.map Prod.fst).Nodup := (List.nodup_cons.mp (by simpa using h)).2
    have hnot : p.1 ∉ ps.map Prod.fst := (List.nodup_cons.mp (by simpa using h)).1
    by_cases hk : p.1 = k
    · have hnone : ps.find? (fun q => q.1 == k) = none := by
        rw [List.find?_eq_none]
        intro q hq hbq
        apply hnot
        have hqk : q.1 = k := by simpa using hbq
        rw [hk, ← hqk]
        exact List.mem_map_of_mem Prod.fst hq
      have hnoner : ps.reverse.find? (fun q => q.1 == k) = none := by
        rw [List.find?_eq_none] at hnone ⊢
        intro q hq
        exact hnone q (List.mem_reverse.mp hq)
      rw [hnoner, List.find?_cons_of_pos _ (by simpa using hk)]
      simp [hk]
    · have hbk : (p.1 == k) = false := by simp [hk]
      have h1 : List.find? (fun q : Key × Key => q.1 == k) [p] = none := by
        simp [List.find?, hbk]
      have h2 : List.find? (fun q : Key × Key => q.1 == k) (p :: ps) =
          List.find? (fun q : Key × Key => q.1 == k) ps :=
        List.find?_cons_of_neg _ (by simp [hbk])
      rw [ih hnd, h1, h2]
      cases ps.find? (fun q : Key × Key => q.1 == k) <;> rfl

/-- C6: a successful `BatchGet` returns one value per input key, in input
order: the value of the pair the server returned for that key (when the
server returns each key at most once), absent when the server returned no
pair for it; duplicate input keys receive the same value. -/
theorem batchGet_association :
    ∀ (keys : List Key) (pairs : List (Key × Key)),
      batchGet keys (.ok ⟨none, some ⟨pairs⟩⟩) =
          .ok (batchGetValues pairs keys)
      ∧ (batchGetValues pairs keys).length = keys.length
      ∧ (∀ (i : Nat) (k : Key), keys[i]? = some k →
          (pairs.map Prod.fst).Nodup →
            (batchGetValues pairs keys)[i]? =
              some ((pairs.find? (fun p => p.1 == k)).map Prod.snd))
      ∧ (∀ (i : Nat) (k : Key), keys[i]? = some k →
          (∀ p ∈ pairs, p.1 ≠ k) →
            (batchGetValues pairs keys)[i]? = some none)
      ∧ (∀ i j : Nat, keys[i]? = keys[j]? →
          (batchGetValues pairs keys)[i]? =
            (batchGetValues pairs keys)[j]?) := by
  intro keys pairs
  refine ⟨rfl, by simp [batchGetValues], ?_, ?_, ?_⟩
  · intro i k hik hnd
    unfold batchGetValues
    rw [List.getElem?_map, hik]
    unfold mapGet
    rw [keyToValueMap_eq_reverse]
    simp only [Option.map_some']
    rw [find?_reverse_of_nodup k pairs hnd]
  · intro i k hik hno
    unfold batchGetValues
    rw [List.getElem?_map, hik]
    unfold mapGet
    rw [keyToValueMap_eq_reverse]
    simp only [Option.map_some']
    have hn : pairs.reverse.find? (fun p => p.1 == k) = none := by
      rw [List.find?_eq_none]
      intro q hq hbq
      exact hno q (List.mem_reverse.mp hq) (by simpa using hbq)
    rw [hn]
    rfl
  · intro i j hij
    unfold batchGetValues
    rw [List.getElem?_map, List.getElem?_map, hij]

theorem batchGet_association_witness :
    batchGet [[1], [2], [1]] (.ok ⟨none, some ⟨[([1], [10])]⟩⟩) =
        .ok (batchGetValues [([1], [10])] [[1], [2], [1]])
    ∧ (batchGetValues [([1], [10])] [[1], [2], [1]])[0]? = some (some [10])
    ∧ (batchGetValues [([1], [10])] [[1], [2], [1]])[1]? = some none
    ∧ (batchGetValues [([1], [10])] [[1], [2], [1]])[0]? =
        (batchGetValues [([1], [10])] [[1], [2], [1]])[2]? :=
  ⟨(batchGet_association [[1], [2], [1]] [([1], [10])]).1,
   by
    have h := (batchGet_association [[1], [2], [1]] [([1], [10])]).2.2.1
      0 [1] rfl (by decide)
    rw [h]; rfl,
   by
    have h := (batchGet_association [[1], [2], [1]] [([1], [10])]).2.2.2.1
      1 [2] rfl (by decide)
    rw [h],
   (batchGet_association [[1], [2], [1]] [([1], [10])]).2.2.2.2 0 2 rfl⟩

/-- Release actions a `Close` call can take, one per sub-component. -/
inductive CloseEvent where
  | pdClose
  | cacheClose
  | rpcClose
  deriving DecidableEq, Repr

/-- The sub-components of a client handle that `Close` touches: the
placement (PD) client, the region routing cache, and the RPC transport.
Each may be nil (`none`); the transport carries the error its own `Close`
would return (`none` for success). -/
structure ClientHandle where
  pdClient : Option Unit
  regionCache : Option Unit
  rpcClient : Option (Option String)
  deriving DecidableEq, Repr

/-- Embedding of `Client.Close` (rawkv.go, lines 106-117): close the PD
client if non-nil, then the region cache if non-nil; if the RPC transport is
nil return nil, otherwise close it and return its result.  The first
component of the result is the sequence of release actions performed. -/
def closeClient (c : ClientHandle) : List CloseEvent × Option String :=
  let ev1 : List CloseEvent :=
    match c.pdClient with
    | some _ => [CloseEvent.pdClose]
    | none => []
  let ev2 : List CloseEvent :=
    match c.regionCache with
    | some _ => [CloseEvent.cacheClose]
    | none => []
  match c.rpcClient with
  | none => (ev1 ++ ev2, none)
  | some res => (ev1 ++ ev2 ++ [CloseEvent.rpcClose], res)

/-- C9: `Close` releases the placement client, then the routing cache, then
the RPC transport, in that order (the performed actions always form a
sublist of that canonical sequence), each component released exactly when it
is non-nil and skipped when nil, and the call returns nil whenever the RPC
transport is nil. -/
theorem close_order_and_nil_safety :
    ∀ c : ClientHandle,
      List.Sublist (closeClient c).1
          [CloseEvent.pdClose, CloseEvent.cacheClose, CloseEvent.rpcClose]
      ∧ (c.pdClient = none → CloseEvent.pdClose ∉ (closeClient c).1)
      ∧ (c.pdClient ≠ none → CloseEvent.pdClose ∈ (closeClient c).1)
      ∧ (c.regionCache = none → CloseEvent.cacheClose ∉ (closeClient c).1)
      ∧ (c.regionCache ≠ none → CloseEvent.cacheClose ∈ (closeClient c).1)
      ∧ (c.rpcClient = none → CloseEvent.rpcClose ∉ (closeClient c).1)
      ∧ (c.rpcClient ≠ none → CloseEvent.rpcClose ∈ (closeClient c).1)
      ∧ (c.rpcClient = none → (closeClient c).2 = none) := by
  intro c
  obtain ⟨pd, cache, rpc⟩ := c
  cases pd <;> cases cache <;> cases rpc <;>
    refine ⟨?_, ?_, ?_, ?_, ?_, ?_, ?_, ?_⟩ <;> simp [closeClient]

theorem close_order_and_nil_safety_witness :
    List.Sublist (closeClient ⟨some (), none, none⟩).1
        [CloseEvent.pdClose, CloseEvent.cacheClose, CloseEvent.rpcClose]
    ∧ CloseEvent.cacheClose ∉ (closeClient ⟨some (), none, none⟩).1
    ∧ CloseEvent.pdClose ∈ (closeClient ⟨some (), none, none⟩).1
    ∧ (closeClient ⟨some (), none, none⟩).2 = none :=
  ⟨(close_order_and_nil_safety ⟨some (), none, none⟩).1,
   (close_order_and_nil_safety ⟨some (), none, none⟩).2.2.2.1 rfl,
   (close_order_and_nil_safety ⟨some (), none, none⟩).2.2.1 (by simp),
   (close_order_and_nil_safety ⟨some (), none, none⟩).2.2.2.2.2.2.2 rfl⟩

/-- Wire message of one raw delete-range RPC
(`kvrpcpb.RawDeleteRangeRequest`). -/
structure RawDeleteRangeRequest where
  startKey : Key
  endKey : Key
  deriving DecidableEq, Repr

/-- Inner body of a raw delete-range response
(`kvrpcpb.RawDeleteRangeResponse`): the server-side error string. -/
structure RawDeleteRangeResponse where
  error : String
  deriving DecidableEq, Repr

/-- The actual end key computed by `sendDeleteRangeReq` (rawkv.go, lines
723-726): `endKey`, overridden by the location's end key when the latter is
non-empty and lexicographically below `endKey`. -/
def actualEndKey (locEnd endKey : Key) : Key :=
  if locEnd ≠ [] ∧ bytesCompare locEnd endKey = .lt then locEnd else endKey

/-- Observable outcome of a `sendDeleteRangeReq` run: the returned value
(response and actual end key; `none` when the trace ends before the loop
does), the (location, request) pair of every attempt in order, and the
`Backoff` invocations. -/
structure DrOutcome where
  result : Option (Except ClientErr (Response RawDeleteRangeResponse × Key))
  reqs : List (KeyLocation × RawDeleteRangeRequest)
  charges : List (String × String)

/-- Embedding of `Client.sendDeleteRangeReq` (rawkv.go, lines 714-751):
like `sendReq` but re-locating `startKey` each attempt, computing the
actual end key from the location, and submitting `[startKey, actualEnd)`;
on success the actual end key is returned alongside the response. -/
def sendDeleteRangeReq (startKey endKey : Key) :
    List (SendIter RawDeleteRangeResponse) → DrOutcome
  | [] => ⟨none, [], []⟩
  | it :: rest =>
    match it.locate with
    | .error m => ⟨some (.error (.locErr m)), [], []⟩
    | .ok loc =>
      let ae := actualEndKey loc.endKey endKey
      let req : RawDeleteRangeRequest := ⟨startKey, ae⟩
      match it.send with
      | .error m => ⟨some (.error (.sendErr m)), [(loc, req)], []⟩
      | .ok resp =>
        match resp.regionError with
        | none => ⟨some (.ok (resp, ae)), [(loc, req)], []⟩
        | some re =>
          match it.backoff with
          | .error m =>
            ⟨some (.error (.backoffErr m)), [(loc, req)], [("RegionMiss", re)]⟩
          | .ok _ =>
            let t := sendDeleteRangeReq startKey endKey rest
            ⟨t.result, (loc, req) :: t.reqs, ("RegionMiss", re) :: t.charges⟩

/-- Observable outcome of a `DeleteRange` walk. -/
structure DelOutcome where
  result : Option (Except ClientErr Unit)
  reqs : List (KeyLocation × RawDeleteRangeRequest)

/-- Embedding of `Client.DeleteRange` (rawkv.go, lines 407-437), one
`sendDeleteRangeReq` trace per outer step: while `startKey ≠ endKey`, run
one region-scoped delete-range step; propagate its error, surface a missing
body or a non-empty server error string, and otherwise advance `startKey`
to the returned actual end key. -/
def DeleteRange (endKey : Key) :
    List (List (SendIter RawDeleteRangeResponse)) → Key → DelOutcome
  | [], startKey =>
    if startKey = endKey then ⟨some (.ok ()), []⟩ else ⟨none, []⟩
  | trace :: rest, startKey =>
    if startKey = endKey then ⟨some (.ok ()), []⟩
    else
      let o := sendDeleteRangeReq startKey endKey trace
      match o.result with
      | none => ⟨none, o.reqs⟩
      | some (.error e) => ⟨some (.error e), o.reqs⟩
      | some (.ok (resp, ae)) =>
        match resp.body with
        | none => ⟨some (.error .bodyMissing), o.reqs⟩
        | some cmd =>
          if cmd.error ≠ "" then ⟨some (.error (.cmdErr cmd.error)), o.reqs⟩
          else
            let t := DeleteRange endKey rest ae
            ⟨t.result, o.reqs ++ t.reqs⟩

/-- Minimum of two keys in lexicographic order, as worded by the
specification for the range-delete walker. -/
def minKeySpec (a b : Key) : Key :=
  if bytesCompare a b = .lt then a else b

/-- The per-step end bound per the specification's wording (§4.E):
`min(locationEnd, end)`, using `end` when the location's end key is empty.
To be compared with `actualEndKey`, which is translated from the code. -/
def specActualEnd (locEnd endKey : Key) : Key :=
  if locEnd = [] then endKey else minKeySpec locEnd endKey

theorem actualEndKey_eq_spec (locEnd endKey : Key) :
    actualEndKey locEnd endKey = specActualEnd locEnd endKey := by
  by_cases h : locEnd = []
  · simp [actualEndKey, specActualEnd, h]
  · by_cases hlt : bytesCompare locEnd endKey = .lt
    · simp [actualEndKey, specActualEnd, minKeySpec, h, hlt]
    · simp [actualEndKey, specActualEnd, minKeySpec, h, hlt]

theorem sendDeleteRangeReq_reqs (s e : Key)
    (env : List (SendIter RawDeleteRangeResponse)) :
    ∀ pr ∈ (sendDeleteRangeReq s e env).reqs,
      pr.2 = ⟨s, specActualEnd pr.1.endKey e⟩ := by
  induction env with
  | nil => intro pr h; simp [sendDeleteRangeReq] at h
  | cons it rest ih =>
    intro pr h
    cases hL : it.locate with
    | error m => simp [sendDeleteRangeReq, hL] at h
    | ok loc =>
      cases hS : it.send with
      | error m =>
        simp [sendDeleteRangeReq, hL, hS] at h
        simp [h, actualEndKey_eq_spec]
      | ok resp =>
        cases hR : resp.regionError with
        | none =>
          simp [sendDeleteRangeReq, hL, hS, hR] at h
          simp [h, actualEndKey_eq_spec]
        | some re =>
          cases hB : it.backoff with
          | error m =>
            simp [sendDeleteRangeReq, hL, hS, hR, hB] at h
            simp [h, actualEndKey_eq_spec]
          | ok u =>
            simp [sendDeleteRangeReq, hL, hS, hR, hB] at h
            rcases h with h | h
            · simp [h, actualEndKey_eq_spec]
            · exact ih pr h

theorem sendDeleteRangeReq_charges (s e : Key)
    (env : List (SendIter RawDeleteRangeResponse)) :
    ∀ c ∈ (sendDeleteRangeReq s e env).charges, c.1 = "RegionMiss" := by
  induction env with
  | nil => intro c hc; simp [sendDeleteRangeReq] at hc
  | cons it rest ih =>
    intro c hc
    cases hL : it.locate with
    | error m => simp [sendDeleteRangeReq, hL] at hc
    | ok loc =>
      cases hS : it.send with
      | error m => simp [sendDeleteRangeReq, hL, hS] at hc
      | ok resp =>
        cases hR : resp.regionError with
        | none => simp [sendDeleteRangeReq, hL, hS, hR] at hc
        | some re =>
          cases hB : it.backoff with
          | error m =>
            simp [sendDeleteRangeReq, hL, hS, hR, hB] at hc
            simp [hc]
          | ok u =>
            simp [sendDeleteRangeReq, hL, hS, hR, hB] at hc
            rcases hc with hc | hc
            · simp [hc]
            · exact ih c hc

theorem sendDeleteRangeReq_ok_no_region_error (s e : Key)
    (env : List (SendIter RawDeleteRangeResponse)) :
    ∀ resp ae, (sendDeleteRangeReq s e env).result = some (.ok (resp, ae)) →
      resp.regionError = none := by
  induction env with
  | nil => intro resp ae h; simp [sendDeleteRangeReq] at h
  | cons it rest ih =>
    intro resp ae h
    cases hL : it.locate with
    | error m => simp [sendDeleteRangeReq, hL] at h
    | ok loc =>
      cases hS : it.send with
      | error m => simp [sendDeleteRangeReq, hL, hS] at h
      | ok resp0 =>
        cases hR : resp0.regionError with
        | none =>
          simp [sendDeleteRangeReq, hL, hS, hR] at h
          obtain ⟨h1, h2⟩ := h
          subst h1; exact hR
        | some re =>
          cases hB : it.backoff with
          | error m => simp [sendDeleteRangeReq, hL, hS, hR, hB] at h
          | ok u =>
            simp [sendDeleteRangeReq, hL, hS, hR, hB] at h
            exact ih resp ae h

/-- C8: the sequential `DeleteRange` walk: the loop exits exactly when
`start = end` (returning success with no further request); every attempted
delete-range request covers `[start, min(locationEnd, end))` with the min
taken as `end` when the location's end key is empty, the same `start` across
region-error retries of a step; each backoff charge of a step uses reason
`RegionMiss` and a returned response carries no region error; and a
successful step makes the walk advance `start` to the step's actual end
key. -/
theorem deleteRange_step_semantics :
    (∀ locEnd endKey : Key,
        actualEndKey locEnd endKey = specActualEnd locEnd endKey)
    ∧ (∀ (s e : Key) (env : List (SendIter RawDeleteRangeResponse)),
        ∀ pr ∈ (sendDeleteRangeReq s e env).reqs,
          pr.2 = ⟨s, specActualEnd pr.1.endKey e⟩)
    ∧ (∀ (s e : Key) (env : List (SendIter RawDeleteRangeResponse)),
        ∀ c ∈ (sendDeleteRangeReq s e env).charges, c.1 = "RegionMiss")
    ∧ (∀ (s e : Key) (env : List (SendIter RawDeleteRangeResponse))
        (resp : Response RawDeleteRangeResponse) (ae : Key),
        (sendDeleteRangeReq s e env).result = some (.ok (resp, ae)) →
          resp.regionError = none)
    ∧ (∀ (e : Key) (env : List (List (SendIter RawDeleteRangeResponse))),
        DeleteRange e env e = ⟨some (.ok ()), []⟩)
    ∧ (∀ (e s : Key) (trace : List (SendIter RawDeleteRangeResponse))
        (rest : List (List (SendIter RawDeleteRangeResponse)))
        (resp : Response RawDeleteRangeResponse) (ae : Key)
        (cmd : RawDeleteRangeResponse),
        s ≠ e →
        (sendDeleteRangeReq s e trace).result = some (.ok (resp, ae)) →
        resp.body = some cmd → cmd.error = "" →
          DeleteRange e (trace :: rest) s =
            ⟨(DeleteRange e rest ae).result,
              (sendDeleteRangeReq s e trace).reqs ++ (DeleteRange e rest ae).reqs⟩) := by
  refine ⟨actualEndKey_eq_spec, sendDeleteRangeReq_reqs,
    sendDeleteRangeReq_charges,
    fun s e env resp ae h => sendDeleteRangeReq_ok_no_region_error s e env resp ae h,
    ?_, ?_⟩
  · intro e env
    cases env with
    | nil => simp [DeleteRange]
    | cons t r => simp [DeleteRange]
  · intro e s trace rest resp ae cmd hne hres hbody herr
    simp [DeleteRange, hne, hres, hbody, herr]

/-- Trace used by the C8 witness: a first attempt hitting a region error
with a successful backoff, then a clean attempt; the region covering the
start key ends at `[100]`, below the range end `[122]`. -/
def c8Env : List (SendIter RawDeleteRangeResponse) :=
  [⟨.ok ⟨[], [100], 5⟩, .ok ⟨some "stale epoch", some ⟨""⟩⟩, .ok ()⟩,
   ⟨.ok ⟨[], [100], 5⟩, .ok ⟨none, some ⟨""⟩⟩, .ok ()⟩]

theorem deleteRange_step_semantics_witness :
    actualEndKey [100] [122] = specActualEnd [100] [122] ∧
    (⟨⟨[], [100], 5⟩, ⟨[97], [100]⟩⟩ :
        KeyLocation × RawDeleteRangeRequest).2 =
      ⟨[97], specActualEnd [100] [122]⟩ ∧
    ("RegionMiss", "stale epoch").1 = "RegionMiss" ∧
    (Response.mk (β := RawDeleteRangeResponse) none
        (some ⟨""⟩)).regionError = none ∧
    DeleteRange [122] [] [122] = ⟨some (.ok ()), []⟩ ∧
    DeleteRange [122] [c8Env] [97] =
      ⟨(DeleteRange [122] [] [100]).result,
        (sendDeleteRangeReq [97] [122] c8Env).reqs ++
          (DeleteRange [122] [] [100]).reqs⟩ :=
  ⟨deleteRange_step_semantics.1 [100] [122],
   deleteRange_step_semantics.2.1 [97] [122] c8Env
     ⟨⟨[], [100], 5⟩, ⟨[97], [100]⟩⟩ (by decide),
   deleteRange_step_semantics.2.2.1 [97] [122] c8Env
     ("RegionMiss", "stale epoch") (by decide),
   deleteRange_step_semantics.2.2.2.1 [97] [122] c8Env
     ⟨none, some ⟨""⟩⟩ [100] rfl,
   deleteRange_step_semantics.2.2.2.2.1 [122] [],
   deleteRange_step_semantics.2.2.2.2.2 [122] [97] c8Env []
     ⟨none, some ⟨""⟩⟩ [100] ⟨""⟩ (by decide) rfl rfl rfl⟩

/-- Modelled from the spec: §4.A/§4.D/§6, abstracting the collaborators of
one outer iteration of `BatchDeleteRange` that are outside the embedded
source: `locf` gives the routing cache's `LocateKey` answer for a queried
key, and `taskErrs i` gives the outcome the i-th completed per-batch task
delivers on the channel (`none` for success, an error message otherwise;
completion order is the scheduler's). -/
structure BdrIter where
  locf : Key → Except String KeyLocation
  taskErrs : Nat → Option String

/-- Zero value of a key-location record; `make([]locate.KeyLocation,
batchSize)` fills the pre-sized buffer with it (rawkv.go, line 329). -/
def zeroKeyLocation : KeyLocation := ⟨[], [], 0⟩

/-- Embedding of the collection loop of `BatchDeleteRange` (rawkv.go, lines
331-345): up to `batchSize` lookups starting at the running start key.  As
in the source, the running start key is advanced before the location record
is appended, so each appended record carries the advanced key as both its
start and end key; the final region (empty or out-of-range end key) appends
the range end twice and stops. -/
def bdrCollect (locf : Key → Except String KeyLocation) (tmpEnd : Key) :
    Nat → Key → List KeyLocation → Except String (Key × List KeyLocation)
  | 0, tmpStart, acc => .ok (tmpStart, acc)
  | count + 1, tmpStart, acc =>
    match locf tmpStart with
    | .error e => .error e
    | .ok loc =>
      if loc.endKey ≠ [] ∧ bytesCompare loc.endKey tmpEnd = .lt then
        bdrCollect locf tmpEnd count loc.endKey
          (acc ++ [⟨loc.endKey, loc.endKey, loc.region⟩])
      else .ok (tmpEnd, acc ++ [⟨tmpEnd, tmpEnd, loc.region⟩])

/-- First error among task outcomes, in channel receive order (rawkv.go,
lines 358-366: the first non-nil drained error is kept). -/
def firstSome : List (Option String) → Option String
  | [] => none
  | some e :: _ => some e
  | none :: rest => firstSome rest

/-- Observable outcome of a `BatchDeleteRange` walk: the returned value,
the captured first task error (the function's `err` variable, used for the
log line and the metrics label), and the batches fanned out, one list of
key-locations per outer iteration. -/
structure BdrOutcome where
  result : Option (Except ClientErr Unit)
  capturedErr : Option String
  fanouts : List (List KeyLocation)

/-- Embedding of the outer loop of `BatchDeleteRange` (rawkv.go, lines
330-372), one `BdrIter` per iteration: while the running start key differs
from the end key, collect locations (a lookup error returns immediately),
fan out one task per entry of the accumulated buffer, drain the outcomes
capturing the first error, and continue; the buffer is never reset between
iterations, and after the walk the function returns nil regardless of any
captured task error. -/
def bdrLoop (tmpEnd : Key) (batchSize : Nat) :
    List BdrIter → Key → List KeyLocation → Option String → BdrOutcome
  | [], tmpStart, _, captured =>
    if tmpStart = tmpEnd then ⟨some (.ok ()), captured, []⟩
    else ⟨none, captured, []⟩
  | it :: rest, tmpStart, keyLocations, captured =>
    if tmpStart = tmpEnd then ⟨some (.ok ()), captured, []⟩
    else
      match bdrCollect it.locf tmpEnd batchSize tmpStart keyLocations with
      | .error e => ⟨some (.error (.locErr e)), captured, []⟩
      | .ok (tmpStart1, keyLocations1) =>
        let outcomes := (List.range keyLocations1.length).map it.taskErrs
        let captured1 :=
          match captured with
          | some e => some e
          | none => firstSome outcomes
        let t := bdrLoop tmpEnd batchSize rest tmpStart1 keyLocations1 captured1
        ⟨t.result, t.capturedErr, keyLocations1 :: t.fanouts⟩

/-- Embedding of `Client.BatchDeleteRange` (rawkv.go, lines 314-373): the
location buffer starts pre-sized with `batchSize` zero-value entries and
nothing captured. -/
def BatchDeleteRange (startKey endKey : Key) (batchSize : Nat)
    (env : List BdrIter) : BdrOutcome :=
  bdrLoop endKey batchSize env startKey
    (List.replicate batchSize zeroKeyLocation) none

theorem bdrLoop_error_is_loc (tmpEnd : Key) (batchSize : Nat)
    (env : List BdrIter) :
    ∀ (tmpStart : Key) (kls : List KeyLocation) (captured : Option String)
      (err : ClientErr),
      (bdrLoop tmpEnd batchSize env tmpStart kls captured).result =
          some (.error err) →
        ∃ m, err = ClientErr.locErr m := by
  induction env with
  | nil =>
    intro s kls cap err h
    by_cases hs : s = tmpEnd <;> simp [bdrLoop, hs] at h
  | cons it rest ih =>
    intro s kls cap err h
    by_cases hs : s = tmpEnd
    · simp [bdrLoop, hs] at h
    · cases hC : bdrCollect it.locf tmpEnd batchSize s kls with
      | error m =>
        simp [bdrLoop, hs, hC] at h
        exact ⟨m, h.symm⟩
      | ok pr =>
        obtain ⟨s1, kls1⟩ := pr
        simp [bdrLoop, hs, hC] at h
        exact ih s1 kls1 _ err h

/-- Environment for the C2 counterexample: one region covering the whole
range, and every per-batch task failing. -/
def c2Env : List BdrIter :=
  [⟨fun _ => .ok ⟨[], [], 7⟩, fun _ => some "rpc failed"⟩]

/-- C2 counterexample: a per-batch task of `BatchDeleteRange` fails and its
error is captured, yet the walk returns success (`return nil`, rawkv.go
line 372) instead of the captured error. -/
theorem batchDeleteRange_drops_captured_error :
    (BatchDeleteRange [0] [1] 1 c2Env).capturedErr = some "rpc failed" ∧
    (BatchDeleteRange [0] [1] 1 c2Env).result = some (.ok ()) :=
  ⟨rfl, rfl⟩

/-- C2 (amended): `BatchDeleteRange` captures the first per-batch task
error (and logs it), but does not return it: any error the walk propagates
to the caller is a region-location lookup error from the collection phase;
a completed walk returns nil even when a task error was captured. -/
theorem batchDeleteRange_returns_nil_after_walk :
    ∀ (batchSize : Nat) (s e : Key) (env : List BdrIter) (err : ClientErr),
      (BatchDeleteRange s e batchSize env).result = some (.error err) →
        ∃ m, err = ClientErr.locErr m := by
  intro batchSize s e env err h
  exact bdrLoop_error_is_loc e batchSize env s _ none err h

/-- Environment for the C2 amended-claim witness: the region lookup itself
fails. -/
def c2LocEnv : List BdrIter :=
  [⟨fun _ => .error "pd down", fun _ => none⟩]

theorem batchDeleteRange_returns_nil_after_walk_witness :
    (BatchDeleteRange [0] [1] 1 c2LocEnv).result =
      some (.error (ClientErr.locErr "pd down")) ∧
    ∃ m, ClientErr.locErr "pd down" = ClientErr.locErr m :=
  ⟨rfl,
   batchDeleteRange_returns_nil_after_walk 1 [0] [1] c2LocEnv
     (ClientErr.locErr "pd down") rfl⟩

/-- Environment for the C3 evaluation: two regions split at `[109]`
(`"m"`), the first `[-∞, [109])`, the second `[[109], +∞)`, all tasks
succeeding. -/
def c3Env : List BdrIter :=
  [⟨fun k => if k = [97] then .ok ⟨[], [109], 1⟩ else .ok ⟨[109], [], 2⟩,
    fun _ => none⟩]

/-- C3 evaluated on `BatchDeleteRange([97], [122], 2)` over two regions
split at `[109]`: the single fanned-out batch holds the two zero-value
entries of the pre-sized buffer followed by two degenerate locations whose
start key equals their end key ([109],[109]) and ([122],[122]) — not the
two collected per-region sub-ranges `[[97],[109])` and `[[109],[122])` the
claim describes; every fanned-out location covers an empty range. -/
theorem batchDeleteRange_fanout_degenerate :
    (BatchDeleteRange [97] [122] 2 c3Env).fanouts =
      [[⟨[], [], 0⟩, ⟨[], [], 0⟩, ⟨[109], [109], 1⟩, ⟨[122], [122], 2⟩]] ∧
    ((BatchDeleteRange [97] [122] 2 c3Env).fanouts.all
        (fun batch => batch.all (fun l => l.startKey == l.endKey))) = true ∧
    (BatchDeleteRange [97] [122] 2 c3Env).result = some (.ok ()) :=
  ⟨rfl, rfl, rfl⟩

end RawKV
